/-
  Verification of the `ImpatialTextClassifier` core
  (src/impatial_text_cls/impatial_text_cls.py) against its
  natural-language specification.

  The numeric pipeline is shallowly embedded: numpy float arrays are
  modelled with `ℚ` (exact arithmetic; the spec's tolerance statements are
  over the idealized values), int32 arrays with `ℤ`, label vectors with
  `List ℤ`, and the TensorFlow session / checkpoint machinery with an
  explicit state-passing step function.  Fallible code (numpy shape
  errors, sklearn NotFittedError, ValidationError) is modelled with
  `Option` / `Except`.
-/
import Mathlib

namespace ImpatialTextCls

/-! ## Monte-Carlo probability aggregation and the int32 output store

`predict_proba` (impatial_text_cls.py:330-361) runs `num_monte_carlo`
stochastic forward passes, averages the per-class probabilities, and
writes the means into the output matrix created at line 348 as
`np.zeros((.., self.n_classes_), dtype=np.int32)`.  Assigning a float
row into an int32-typed numpy array casts every entry with C truncation
toward zero. -/

/-- C-style cast of a float to an integer: truncation toward zero.
Models what numpy does when a float value is stored into an
`np.int32`-typed array. -/
def truncToward0 (q : ℚ) : ℤ :=
  if 0 ≤ q then ⌊q⌋ else ⌈q⌉

/-- Column-wise sum of a list of equal-length rows; models
`np.sum(probs, axis=0)` as used inside `np.mean(probs, axis=0)`. -/
def colSum : List (List ℚ) → List ℚ
  | [] => []
  | [r] => r
  | r :: r₂ :: rest => List.zipWith (· + ·) r (colSum (r₂ :: rest))

/-- Mean over the Monte-Carlo axis: `np.mean(probs, axis=0)` for one
sample, where `rows` are the `num_monte_carlo` per-pass probability
rows of that sample (impatial_text_cls.py:356-358). -/
def mcMeanRow (rows : List (List ℚ)) : List ℚ :=
  (colSum rows).map (· / (rows.length : ℚ))

/-- Storing a float row into the int32-typed `probabilities` matrix of
`predict_proba` (line 348): every entry is truncated toward zero. -/
def storeInt32Row (row : List ℚ) : List ℤ :=
  row.map truncToward0

/-- One row of the matrix returned by `predict_proba`: the Monte-Carlo
mean of the per-pass probability rows, as materialized through the
int32-typed output array. -/
def predictProbaRow (rows : List (List ℚ)) : List ℤ :=
  storeInt32Row (mcMeanRow rows)

/-- A valid probability row as produced by one softmax forward pass
with at least two classes: entries strictly inside `(0,1)` and summing
to `1`. -/
def IsDistribRow (r : List ℚ) : Prop :=
  r.sum = 1 ∧ ∀ x ∈ r, 0 < x ∧ x < 1

instance (r : List ℚ) : Decidable (IsDistribRow r) := by
  unfold IsDistribRow; infer_instance

/-- Spec predicate on a returned (int-valued) row: every entry lies
strictly in the open interval `(0,1)` when read back as a float. -/
def entriesInOpenUnit (r : List ℤ) : Bool :=
  r.all (fun z => decide ((0 : ℚ) < (z : ℚ) ∧ (z : ℚ) < 1))

/-! ## Argmax-with-threshold prediction

`predict` (impatial_text_cls.py:366-373) takes the matrix returned by
`predict_proba`, computes `argmax(axis=-1)` per row, and replaces the
class id by `-1` when the probability at the argmax is below
`certainty_threshold_`. -/

/-- Index of the first occurrence of the maximal entry of a row;
models `np.argmax` (ties resolved to the lowest index). -/
def npArgmax (row : List ℤ) : Nat :=
  match row.maximum with
  | none => 0
  | some m => row.indexOf m

/-- One entry of the vector returned by `predict`: the argmax class id,
demoted to the sentinel `-1` when its probability is below the
certainty threshold (lines 368-371). -/
def predictRow (row : List ℤ) (threshold : ℚ) : ℤ :=
  if ((row.getD (npArgmax row) 0 : ℤ) : ℚ) < threshold then -1
  else (npArgmax row : ℤ)

/-! ## Batch extension (`extend_Xy`, impatial_text_cls.py:410-447)

`X` is a list of three 2-D int32 arrays (token ids, mask, segment ids),
each with `n_samples` rows; `y` is a 1-D label vector.  When
`n_samples % batch_size ≠ 0` the code appends `batch_size - n_samples %
batch_size` copies of the last row to every channel, and tries to do
the same to `y` — but builds the padding for `y` with
`np.full(shape=(n_extend, self.MAX_SEQ_LENGTH), fill_value=y[-1])`
(line 441), a 2-D array, and `np.concatenate` of a 1-D with a 2-D array
raises a `ValueError`.  `npConcat` models numpy's dimensionality check. -/

/-- Maximal token sequence length (class constant `MAX_SEQ_LENGTH`). -/
def MAX_SEQ_LENGTH : Nat := 512

/-- A numpy integer array of dimension 1 or 2. -/
inductive NpArr where
  | one (d : List ℤ)
  | two (d : List (List ℤ))
deriving DecidableEq

/-- Concatenation along axis 0; numpy raises a `ValueError` when the
operands' numbers of dimensions differ, modelled by `none`. -/
def npConcat : NpArr → NpArr → Option NpArr
  | .one a, .one b => some (.one (a ++ b))
  | .two a, .two b => some (.two (a ++ b))
  | _, _ => none

/-- The 2-D array `np.full((rows, cols), v)`. -/
def npFull2d (rows cols : Nat) (v : ℤ) : List (List ℤ) :=
  List.replicate rows (List.replicate cols v)

/-- The `extend_Xy` method in the form it is called with a label vector
(fit, lines 112 and 115).  Faithful to lines 410-447: on a full final
batch the inputs are returned unchanged before any other work; on a
partial final batch every channel of `X` is padded with copies of its
last row, and the label padding is built with the 2-D shape
`(n_extend, MAX_SEQ_LENGTH)`, so the 1-D/2-D `np.concatenate` at
lines 438-443 fails (`none`).  In the (unreachable) success branch the
code builds `indices = np.arange(...)` and — unlike the `y is None`
branch — never shuffles it, so the permutation applied would be the
identity. -/
def extend_Xy (B : Nat) (X : List (List (List ℤ))) (y : List ℤ) (shuffle : Bool) :
    Option (List (List (List ℤ)) × List ℤ) :=
  let n := (X.headD []).length
  let r := n % B
  if r = 0 then some (X, y)
  else
    let ne := B - r
    let X_ext := X.map (fun ch => ch ++ List.replicate ne (ch.getLastD []))
    match npConcat (.one y) (.two (npFull2d ne MAX_SEQ_LENGTH (y.getLastD 0))) with
    | some (.one yExt) =>
        if shuffle then
          let indices := List.range (n + ne)
          some (X_ext.map (fun ch => indices.map (fun i => ch.getD i [])),
                indices.map (fun i => yExt.getD i 0))
        else some (X_ext, yExt)
    | _ => none

/-- The `extend_Xy` method in the form it is called without labels
(`y is None`, lines 127, 134 and 341).  `perm` stands for the
permutation produced by `np.random.shuffle` at line 435. -/
def extend_X (B : Nat) (X : List (List (List ℤ))) (shuffle : Bool) (perm : List Nat) :
    List (List (List ℤ)) :=
  let n := (X.headD []).length
  let r := n % B
  if r = 0 then X
  else
    let ne := B - r
    let X_ext := X.map (fun ch => ch ++ List.replicate ne (ch.getLastD []))
    if shuffle then X_ext.map (fun ch => perm.map (fun i => ch.getD i []))
    else X_ext

deriving instance DecidableEq for Except

/-! ## Certainty-threshold calibration (impatial_text_cls.py:251-327)

At the end of `fit` the code computes, for every sample of the labeled
evaluation set and of the unlabeled set, the maximum of the
Monte-Carlo-averaged class probabilities (`mean_probs.max(axis=-1)`,
stored in float32 arrays).  Without unlabeled samples the threshold is
`probabilities_for_labeled_samples.min()` (line 298); with unlabeled
samples it is found by the F1 sweep at lines 304-321. -/

/-- Maximum of a nonempty float array (`np.max`); `0` for the empty
array (unused). -/
def npMaxQ : List ℚ → ℚ
  | [] => 0
  | x :: xs => xs.foldl max x

/-- Minimum of a nonempty float array (`.min()`); `0` for the empty
array (unused). -/
def npMinQ : List ℚ → ℚ
  | [] => 0
  | x :: xs => xs.foldl min x

/-- A sample's confidence: the top Monte-Carlo-averaged class
probability `mean_probs.max(axis=-1)` (lines 262, 275, 295). -/
def topMeanProb (rows : List (List ℚ)) : ℚ :=
  npMaxQ (mcMeanRow rows)

/-- Confidences of a set of samples; `mc` holds, per sample, its
Monte-Carlo per-pass probability rows. -/
def confidences (mc : List (List (List ℚ))) : List ℚ :=
  mc.map topMeanProb

/-- True positives of a binary prediction (`pos_label = 1 = true`). -/
def countTP (t p : List Bool) : Nat :=
  ((t.zip p).filter (fun z => z.1 && z.2)).length

/-- False positives of a binary prediction. -/
def countFP (t p : List Bool) : Nat :=
  ((t.zip p).filter (fun z => !z.1 && z.2)).length

/-- False negatives of a binary prediction. -/
def countFN (t p : List Bool) : Nat :=
  ((t.zip p).filter (fun z => z.1 && !z.2)).length

/-- Binary F1 score as computed by `sklearn.metrics.f1_score` with the
default `pos_label=1`: `2·TP / (2·TP + FP + FN)`, and `0` when the
denominator is zero. -/
def f1Score (t p : List Bool) : ℚ :=
  let d := 2 * countTP t p + countFP t p + countFN t p
  if d = 0 then 0 else (2 * countTP t p : ℚ) / (d : ℚ)

/-- The boolean prediction `probabilities >= threshold` (lines 313, 316). -/
def threshPreds (probs : List ℚ) (thr : ℚ) : List Bool :=
  probs.map (fun x => decide (thr ≤ x))

/-- The quantity maximized by the sweep: the F1 score of
`probabilities >= k/1000` against the labeled-vs-unlabeled target. -/
def sweepObjective (probs : List ℚ) (yTrue : List Bool) (k : Nat) : ℚ :=
  f1Score yTrue (threshPreds probs ((k : ℚ) / 1000))

/-- The `while threshold < 1.0` loop of lines 314-320, iterating over
thresholds `k/1000`: `fuel` counts the remaining iterations, `k` is the
current step index, and the best-so-far F1 and threshold are carried
along; the best values are replaced only on strict improvement. -/
def sweepAux (probs : List ℚ) (yTrue : List Bool) :
    Nat → Nat → ℚ → ℚ → ℚ
  | 0, _, _, bestThr => bestThr
  | fuel + 1, k, bestF1, bestThr =>
    if bestF1 < sweepObjective probs yTrue k then
      sweepAux probs yTrue fuel (k + 1) (sweepObjective probs yTrue k) ((k : ℚ) / 1000)
    else sweepAux probs yTrue fuel (k + 1) bestF1 bestThr

/-- The whole threshold sweep of lines 312-321: the initial best is the
threshold `1/1000` with its F1 score, then thresholds `2/1000` through
`999/1000` (all values strictly below `1`) are examined. -/
def sweepThreshold (probs : List ℚ) (yTrue : List Bool) : ℚ :=
  sweepAux probs yTrue 998 2 (sweepObjective probs yTrue 1) ((1 : ℚ) / 1000)

/-- The certainty-threshold calibration of lines 297-321.  `labMC` and
`unlabMC` hold the Monte-Carlo probability rows of the labeled
evaluation samples and of the unlabeled samples. -/
def calibrateThreshold (labMC unlabMC : List (List (List ℚ))) : ℚ :=
  if unlabMC.isEmpty then npMinQ (confidences labMC)
  else
    sweepThreshold (confidences labMC ++ confidences unlabMC)
      (List.replicate (confidences labMC).length true ++
       List.replicate (confidences unlabMC).length false)

/-! ## Label validation (`check_Xy`, lines 866-896, and `fit`, lines 49-54)

`check_Xy` collects `sorted(list({int(y[i]) | y[i] >= 0}))`, raising
when fewer than two distinct non-negative classes exist; `fit` then
raises when the sorted class list does not start at `0` or does not end
at `len - 1`, with a message carrying `list(range(len(classes)))` and
the actual class list. -/

/-- Validation failures of the label vector relevant to the class-set
checks.  `labelsNotOrdered` carries the two lists interpolated into the
error message of fit's line 51-53. -/
inductive FitError where
  | tooFewClasses
  | labelsNotOrdered (expected actual : List Nat)
deriving DecidableEq

/-- Insertion of a value into a sorted duplicate-free list, keeping it
sorted and duplicate-free. -/
def insertSortedNat (x : Nat) : List Nat → List Nat
  | [] => [x]
  | y :: ys =>
    if x < y then x :: y :: ys
    else if x = y then y :: ys
    else y :: insertSortedNat x ys

/-- The expression `sorted(list(classes_list))` of `check_Xy`
(lines 879-896): the sorted list of the distinct non-negative labels. -/
def classesOf (y : List ℤ) : List Nat :=
  (y.filter (fun v => 0 ≤ v)).foldl (fun acc v => insertSortedNat v.toNat acc) []

/-- The class-set part of `check_Xy` (lines 894-896): fewer than two
distinct non-negative classes is an error, otherwise the sorted class
list is returned. -/
def check_Xy_classes (y : List ℤ) : Except FitError (List Nat) :=
  let cs := classesOf y
  if cs.length < 2 then .error .tooFewClasses else .ok cs

/-- The label checks performed at the start of `fit` (lines 49-54):
`check_Xy` followed by the contiguity test
`classes[0] != 0 or classes[-1] != len(classes) - 1`; on success
`n_classes_` is set to the number of classes. -/
def fitLabelCheck (y : List ℤ) : Except FitError Nat :=
  match check_Xy_classes y with
  | .error e => .error e
  | .ok cs =>
    if cs.headD 0 ≠ 0 ∨ cs.getLastD 0 ≠ cs.length - 1 then
      .error (.labelsNotOrdered (List.range cs.length) cs)
    else .ok cs.length

/-- Discriminates the errors whose message names the expected and the
actual class lists. -/
def errorNamesClassLists : Except FitError Nat → Bool
  | .error (.labelsNotOrdered _ _) => true
  | _ => false

/-! ## Epoch loop, checkpointing and cleanup (`fit`, lines 159-250)

The epoch loop is modelled as a state machine over an abstract model
type `M`.  Per epoch: one pass of training over the shuffled batches
(`train e`, which may raise, modelled with `Except`), the epoch quality
(training log-likelihood or validation mean F1), the best-checkpoint
bookkeeping of lines 202-239, the early-stop test of line 240, and the
best-checkpoint reload of lines 244-247.  `save_model` writes the
TensorFlow checkpoint files derived from the temporary model name; the
`finally` clause of lines 248-250 removes every file found by
`find_all_model_files`, which matches by substring on the base name. -/

/-- File names are modelled as character lists. -/
abbrev FileName := List Char

/-- Check that `p` begins the list `l`. -/
def beginsWith : FileName → FileName → Bool
  | [], _ => true
  | _ :: _, [] => false
  | a :: as, b :: bs => a = b && beginsWith as bs

/-- Substring containment, as used by `find_all_model_files`
(line 739: `it.lower().find(base_name.lower()) >= 0`). -/
def containsSub (needle : FileName) : FileName → Bool
  | [] => needle.isEmpty
  | c :: rest => beginsWith needle (c :: rest) || containsSub needle rest

/-- The files written by `tf.train.Saver.save` under a checkpoint base
name. -/
def checkpointFiles (base : FileName) : List FileName :=
  [base ++ ".index".toList, base ++ ".meta".toList,
   base ++ ".data-00000-of-00001".toList]

/-- Effect of `save_model(tmp_model_name)` on the set of files in the
temporary directory: the checkpoint files are (over)written. -/
def saveModelFiles (base : FileName) (files : List FileName) : List FileName :=
  (checkpointFiles base).union files

/-- The in-loop training state: the in-memory model (graph variables),
the best checkpoint together with its quality score (`best_acc` plus
the saved file contents), and the `n_epochs_without_improving`
counter. -/
structure EpochState (M : Type) where
  model : M
  best : Option (M × ℚ)
  noImp : Nat
deriving DecidableEq

/-- The improvement test of lines 202-211 / 228-237: the first epoch
(`best_acc is None`) always counts as an improvement; afterwards the
epoch quality must strictly exceed the best one. -/
def epochImproved {M : Type} (q : ℚ) (best : Option (M × ℚ)) : Bool :=
  match best with
  | none => true
  | some (_, bq) => bq < q

/-- The best checkpoint after an epoch's bookkeeping: `save_model`
replaces it on improvement, otherwise it is kept. -/
def epochBest {M : Type} (m₁ : M) (q : ℚ) (best : Option (M × ℚ)) :
    Option (M × ℚ) :=
  if epochImproved q best then some (m₁, q) else best

/-- The model obtained by the reload of lines 244-247:
`load_model(tmp_model_name)` reads back the saved best checkpoint (the
`None` fallback is unreachable, because after any epoch's bookkeeping a
checkpoint exists). -/
def reloadBest {M : Type} (m₁ : M) (best : Option (M × ℚ)) : M :=
  match best with
  | some (bm, _) => bm
  | none => m₁

/-- One run of the epoch loop of `fit` (lines 162-247), with the files
written by `save_model` threaded through.  Returns the state at loop
exit plus a flag telling whether the exit was by early stopping
(`break` at line 243) rather than by exhausting `max_epochs`, and the
final list of files; an exception raised by training propagates, with
the file list preserved.

Per iteration, in source order: train one epoch (`train e`); compute
the epoch quality; on the first epoch or on strict improvement, record
the quality, save a checkpoint and reset the counter, else increment
it (lines 202-237); stop when the counter reaches `patience`
(lines 240-243) — in which case the just-trained in-memory model is
kept; otherwise rebuild the graph and reload the best checkpoint
(lines 244-247) before the next epoch. -/
def runEpochsF {M ε : Type} (train : Nat → M → Except ε M) (quality : M → ℚ)
    (patience : Nat) (base : FileName) :
    Nat → Nat → EpochState M → List FileName →
      Except ε (EpochState M × Bool) × List FileName
  | 0, _, s, files => (.ok (s, false), files)
  | fuel + 1, e, s, files =>
    match train e s.model with
    | .error err => (.error err, files)
    | .ok m₁ =>
      let q := quality m₁
      let best₁ := epochBest m₁ q s.best
      let noImp₁ := if epochImproved q s.best then 0 else s.noImp + 1
      let files₁ := if epochImproved q s.best then saveModelFiles base files else files
      if patience ≤ noImp₁ then (.ok (⟨m₁, best₁, noImp₁⟩, true), files₁)
      else
        runEpochsF train quality patience base fuel (e + 1)
          ⟨reloadBest m₁ best₁, best₁, noImp₁⟩ files₁

/-- The `try ... finally` of lines 160-250 around the epoch loop: run
the loop from a fresh state, then — whether it ended normally, stopped
early or raised — delete every file matching the temporary model name
(`find_all_model_files` + `os.remove`), re-raising any exception. -/
def fitTrainLoop {M ε : Type} (train : Nat → M → Except ε M) (quality : M → ℚ)
    (patience : Nat) (base : FileName) (maxEpochs : Nat) (m0 : M)
    (files0 : List FileName) :
    Except ε (EpochState M × Bool) × List FileName :=
  let out := runEpochsF train quality patience base maxEpochs 0 ⟨m0, none, 0⟩ files0
  (out.1, out.2.filter (fun f => !(containsSub base f)))

/-! ## Serialization (`dump_all` lines 655-677, `load_all` lines 679-726)

The persisted state is the flat parameter dictionary returned by
`get_params` plus, when the instance is fitted, the keys `n_classes_`,
`tokenizer_`, `model_name_` and one `model.<file>` blob per checkpoint
file.  The scalar `certainty_threshold_` is not among the stored keys.
`load_all` restores the configuration, and when the fitted-state keys
and at least one blob are present it rebuilds the graph and loads the
checkpoint; the attributes it sets are exactly the stored keys.
`is_fitted` (lines 396-398) probes attribute presence via
`check_is_fitted`, which raises `NotFittedError` when any of the listed
attributes — `certainty_threshold_` among them — is missing. -/

/-- The attributes of a classifier instance relevant to the
serialization round trip.  Graph-related attributes (`sess_`,
`logits_`, `labels_distribution_`, placeholders) are summarized by
`graph_`, whose value stands for the trained weights. -/
structure ClsAttrs where
  batch_size : Nat
  num_monte_carlo : Nat
  n_classes_ : Option Nat
  tokenizer_ : Option Nat
  graph_ : Option Nat
  certainty_threshold_ : Option ℚ
deriving DecidableEq

/-- The attribute probe of `is_fitted` (lines 396-398): all of
`n_classes_`, `tokenizer_`, the graph attributes and
`certainty_threshold_` must be present. -/
def isFittedB (s : ClsAttrs) : Bool :=
  s.n_classes_.isSome && s.tokenizer_.isSome && s.graph_.isSome &&
    s.certainty_threshold_.isSome

/-- The flat dictionary built by `dump_all` (lines 655-677): the
configuration parameters and, for a fitted instance, `n_classes_`,
`tokenizer_`, `model_name_` and the checkpoint file blobs (keys
`model.<file>`).  No other key is written. -/
structure StateDict where
  batch_size : Nat
  num_monte_carlo : Nat
  n_classes_ : Option Nat
  tokenizer_ : Option Nat
  model_name_ : Option Nat
  modelBlobs : List Nat
deriving DecidableEq

/-- `dump_all`: `get_params` plus, when `is_fitted` passes, the
fitted-state keys and the checkpoint blobs saved through
`save_model`. -/
def dump_all (s : ClsAttrs) : StateDict :=
  if isFittedB s then
    { batch_size := s.batch_size, num_monte_carlo := s.num_monte_carlo,
      n_classes_ := s.n_classes_, tokenizer_ := s.tokenizer_,
      model_name_ := some 0, modelBlobs := [s.graph_.getD 0] }
  else
    { batch_size := s.batch_size, num_monte_carlo := s.num_monte_carlo,
      n_classes_ := none, tokenizer_ := none, model_name_ := none,
      modelBlobs := [] }

/-- `load_all` (lines 679-726): when `n_classes_`, `tokenizer_`,
`model_name_` and at least one `model.` blob are present, restore the
configuration and the fitted attributes, rebuild the graph and load
the checkpoint from the blobs; otherwise restore the configuration
only.  `certainty_threshold_` is never assigned on either path because
it is absent from the dictionary. -/
def load_all (p : StateDict) : ClsAttrs :=
  if p.n_classes_.isSome && p.tokenizer_.isSome && p.model_name_.isSome &&
      !p.modelBlobs.isEmpty then
    { batch_size := p.batch_size, num_monte_carlo := p.num_monte_carlo,
      n_classes_ := p.n_classes_, tokenizer_ := p.tokenizer_,
      graph_ := some (p.modelBlobs.getD 0 0),
      certainty_threshold_ := none }
  else
    { batch_size := p.batch_size, num_monte_carlo := p.num_monte_carlo,
      n_classes_ := none, tokenizer_ := none, graph_ := none,
      certainty_threshold_ := none }

/-- Failure raised by the inference methods on an unfit instance. -/
inductive PredictErr where
  | notFitted
deriving DecidableEq

/-- The `is_fitted` gate executed at the start of `predict` /
`predict_proba` (line 338): `NotFittedError` when any probed attribute
is missing. -/
def predictGate (s : ClsAttrs) : Except PredictErr Unit :=
  if isFittedB s then .ok () else .error .notFitted

/-! ## The ELBO training objective (`build_model`, lines 540-546)

The loss minimized by the optimizer is
`-tf.reduce_mean(labels_distribution_.log_prob(y_ph_)) + sum(model.losses)`
where `labels_distribution_` is `tfp.distributions.Categorical(logits)`
and `model.losses` holds the per-layer KL-divergence terms of the
`DenseFlipout` layers. -/

/-- Softmax of a logit row. -/
noncomputable def softmax (logits : List ℝ) : List ℝ :=
  logits.map (fun z => Real.exp z / ((logits.map Real.exp).sum))

/-- `Categorical(logits).log_prob(k)` as computed by
tensorflow-probability: `logits[k] - logsumexp(logits)`. -/
noncomputable def catLogProb (logits : List ℝ) (k : Nat) : ℝ :=
  logits.getD k 0 - Real.log ((logits.map Real.exp).sum)

/-- The term `-tf.reduce_mean(labels_distribution_.log_prob(y_ph_))`
of line 541 for a batch with per-sample logit rows and true labels. -/
noncomputable def negLogLikelihood (logits : List (List ℝ)) (ys : List Nat) : ℝ :=
  -(((logits.zip ys).map (fun p => catLogProb p.1 p.2)).sum / (ys.length : ℝ))

/-- The loss of line 543: `elbo_loss = neg_log_likelihood + kl` with
`kl = sum(model.losses)`, the per-layer KL-divergence terms. -/
noncomputable def elboLoss (logits : List (List ℝ)) (ys : List Nat)
    (klTerms : List ℝ) : ℝ :=
  negLogLikelihood logits ys + klTerms.sum

/-- Plain mean cross-entropy of the true labels under the softmax
distribution: the mean of `-log softmax(logits)[k]` over the batch. -/
noncomputable def crossEntropy (logits : List (List ℝ)) (ys : List Nat) : ℝ :=
  ((logits.zip ys).map (fun p => -Real.log ((softmax p.1).getD p.2 0))).sum /
    (ys.length : ℝ)

/-! # Theorems -/

/-- C1.  The claim fails on the code: `predict_proba` allocates its
output matrix as `np.zeros(..., dtype=np.int32)` (line 348), so the
Monte-Carlo mean probabilities are truncated toward zero on storage.
With two valid softmax rows averaging to `[1/2, 1/2]`, the returned
row is `[0, 0]`: its sum is `0` — off from `1` by far more than the
`1e-3` tolerance — and no entry lies in the open interval `(0,1)`,
although the pre-storage mean row is a genuine probability vector. -/
theorem predict_proba_int32_rows_not_prob :
    IsDistribRow [(3 : ℚ)/5, 2/5] ∧ IsDistribRow [(2 : ℚ)/5, 3/5] ∧
    mcMeanRow [[(3 : ℚ)/5, 2/5], [(2 : ℚ)/5, 3/5]] = [1/2, 1/2] ∧
    IsDistribRow [(1 : ℚ)/2, 1/2] ∧
    predictProbaRow [[(3 : ℚ)/5, 2/5], [(2 : ℚ)/5, 3/5]] = [0, 0] ∧
    ((predictProbaRow [[(3 : ℚ)/5, 2/5], [(2 : ℚ)/5, 3/5]]).sum : ℚ) = 0 ∧
    entriesInOpenUnit (predictProbaRow [[(3 : ℚ)/5, 2/5], [(2 : ℚ)/5, 3/5]]) = false ∧
    ¬((1 : ℚ) - ((predictProbaRow [[(3 : ℚ)/5, 2/5], [(2 : ℚ)/5, 3/5]]).sum : ℚ) ≤ 1/1000) := by
  have hfloor : ⌊(1 : ℚ)/2⌋ = 0 := by
    rw [Int.floor_eq_zero_iff]
    constructor <;> norm_num
  have hmean : mcMeanRow [[(3 : ℚ)/5, 2/5], [(2 : ℚ)/5, 3/5]] = [1/2, 1/2] := by
    norm_num [mcMeanRow, colSum]
  have hrow : predictProbaRow [[(3 : ℚ)/5, 2/5], [(2 : ℚ)/5, 3/5]] = [0, 0] := by
    rw [predictProbaRow, hmean, storeInt32Row]
    simp [truncToward0, hfloor]
    norm_num
  refine ⟨?_, ?_, hmean, ?_, hrow, ?_, ?_, ?_⟩
  · norm_num [IsDistribRow]
  · norm_num [IsDistribRow]
  · norm_num [IsDistribRow]
  · rw [hrow]; norm_num
  · rw [hrow]; norm_num [entriesInOpenUnit]
  · rw [hrow]; norm_num

/-- C2.  The claim fails on the code: `dump_all` never stores
`certainty_threshold_` and `load_all` never restores it, so for a
fitted instance the round trip yields an instance without that
attribute; the `check_is_fitted` probe then fails and `predict`
raises `NotFittedError` instead of returning the original class ids,
and no threshold equal to the original within `1e-6` exists. -/
theorem dump_all_load_all_loses_certainty_threshold :
    isFittedB ⟨4, 50, some 2, some 7, some 3, some (1/2)⟩ = true ∧
    predictGate ⟨4, 50, some 2, some 7, some 3, some (1/2)⟩ = .ok () ∧
    (load_all (dump_all ⟨4, 50, some 2, some 7, some 3, some (1/2)⟩)).certainty_threshold_ = none ∧
    isFittedB (load_all (dump_all ⟨4, 50, some 2, some 7, some 3, some (1/2)⟩)) = false ∧
    predictGate (load_all (dump_all ⟨4, 50, some 2, some 7, some 3, some (1/2)⟩)) =
      .error .notFitted := by
  decide

/-- C3.  The claim fails on the code: on a partial final batch the
label padding is built as the 2-D array
`np.full((n_extend, MAX_SEQ_LENGTH), y[-1])` (line 441), and
concatenating it onto the 1-D label vector raises a numpy
`ValueError` (modelled by `none`) — for 3 samples and batch size 2,
with or without shuffling — while the token channels alone would have
been padded correctly with a copy of the last row. -/
theorem extend_Xy_label_padding_raises :
    extend_Xy 2 [[[1, 1], [2, 2], [3, 3]]] [0, 1, 0] true = none ∧
    extend_Xy 2 [[[1, 1], [2, 2], [3, 3]]] [0, 1, 0] false = none ∧
    extend_X 2 [[[1, 1], [2, 2], [3, 3]]] false [] = [[[1, 1], [2, 2], [3, 3], [3, 3]]] := by
  decide

/-- C6, counterexample.  For `y = [0, 0, -1]` the distinct
non-negative labels are `{0}`, which is not a contiguous `{0..k-1}`
set with `k ≥ 2`, so the claim requires an error naming the expected
and actual class lists — but `check_Xy` raises the too-few-classes
error, which names neither list. -/
theorem fit_label_check_too_few_classes_cex :
    classesOf [0, 0, -1] = [0] ∧
    (classesOf [0, 0, -1]).length < 2 ∧
    fitLabelCheck [0, 0, -1] = .error .tooFewClasses ∧
    errorNamesClassLists (fitLabelCheck [0, 0, -1]) = false := by
  decide

/-- C7, counterexample.  A concrete run refuting the claim that
calibration always sees the best checkpoint: with `patience = 1`,
`max_epochs = 2`, training that increments the model and a quality
that is `1` exactly at model `1`: epoch 0 trains to model `1`
(best checkpoint, score `1`) and reloads it; epoch 1 trains to model
`2`, does not improve, and early stopping breaks *before* the reload
of lines 244-247 — so the loop exits with in-memory model `2` while
the best checkpoint holds model `1`, and threshold calibration runs
on model `2`, not on the best checkpoint. -/
theorem early_stop_skips_best_restore_cex :
    (runEpochsF (fun _ m => (Except.ok (m + 1) : Except Unit Nat))
        (fun m : Nat => if m = 1 then (1 : ℚ) else 0) 1 [] 2 0 ⟨0, none, 0⟩ []).1 =
      Except.ok (⟨2, some (1, 1), 1⟩, true) ∧ (2 : Nat) ≠ 1 := by
  decide

/-- C10.  When the sample count is an exact multiple of the batch
size, `extend_Xy` returns its inputs unchanged on the `n_extend == 0`
fast path of lines 414-417 — before any padding is built and before
any permutation is drawn — in both the labeled form and the
`y is None` form, for every candidate permutation. -/
theorem extend_Xy_full_batches_unchanged (B : Nat) (X : List (List (List ℤ)))
    (y : List ℤ) (perm : List Nat) (h : (X.headD []).length % B = 0) :
    extend_Xy B X y true = some (X, y) ∧ extend_X B X true perm = X := by
  have h' : (X.head?.getD []).length % B = 0 := by simpa using h
  constructor
  · simp [extend_Xy, h']
  · simp [extend_X, h']

/-- C10, witness: two samples with batch size two. -/
theorem extend_Xy_full_batches_unchanged_witness :
    ((([[[1], [2]]] : List (List (List ℤ))).headD []).length % 2 = 0) ∧
    extend_Xy 2 [[[1], [2]]] [0, 1] true = some ([[[1], [2]]], [0, 1]) ∧
    extend_X 2 [[[1], [2]]] true [1, 0] = [[[1], [2]]] :=
  ⟨by decide,
   (extend_Xy_full_batches_unchanged 2 [[[1], [2]]] [0, 1] [1, 0] (by decide)).1,
   (extend_Xy_full_batches_unchanged 2 [[[1], [2]]] [0, 1] [1, 0] (by decide)).2⟩

/-- Specification of `npArgmax`: on a nonempty row it returns a valid
index whose entry dominates every entry of the row (numpy `argmax`
returns the first maximizing index). -/
theorem npArgmax_spec (row : List ℤ) (h : row ≠ []) :
    npArgmax row < row.length ∧
      ∀ j, j < row.length → row.getD j 0 ≤ row.getD (npArgmax row) 0 := by
  obtain ⟨m, hm⟩ : ∃ m, row.maximum = some m := by
    cases hmax : row.maximum with
    | bot => exact absurd (List.maximum_eq_none.mp hmax) h
    | coe m => exact ⟨m, rfl⟩
  have hmem : m ∈ row := List.maximum_mem hm
  have hidx : row.indexOf m < row.length := List.indexOf_lt_length.mpr hmem
  have hargmax : npArgmax row = row.indexOf m := by
    unfold npArgmax
    rw [hm]
  have hval : row.getD (npArgmax row) 0 = m := by
    rw [hargmax, List.getD_eq_getElem _ _ hidx]
    exact List.getElem_indexOf hidx
  refine ⟨by rw [hargmax]; exact hidx, ?_⟩
  intro j hj
  rw [hval, List.getD_eq_getElem _ _ hj]
  exact List.le_maximum_of_mem (List.getElem_mem hj) hm

/-- C5.  `predict` (lines 366-373) is exactly thresholded argmax over
the matrix returned by `predict_proba`: per row, the argmax is a
valid class index holding the row's maximal probability; the returned
id equals that argmax when the maximal probability reaches
`certainty_threshold_`, and is the sentinel `-1` otherwise. -/
theorem predict_thresholded_argmax (row : List ℤ) (t : ℚ) (h : row ≠ []) :
    npArgmax row < row.length ∧
    (∀ j, j < row.length → row.getD j 0 ≤ row.getD (npArgmax row) 0) ∧
    (t ≤ ((row.getD (npArgmax row) 0 : ℤ) : ℚ) →
      predictRow row t = (npArgmax row : ℤ)) ∧
    (((row.getD (npArgmax row) 0 : ℤ) : ℚ) < t → predictRow row t = -1) := by
  obtain ⟨h1, h2⟩ := npArgmax_spec row h
  refine ⟨h1, h2, ?_, ?_⟩
  · intro ht
    unfold predictRow
    rw [if_neg (not_lt.mpr ht)]
  · intro ht
    unfold predictRow
    rw [if_pos ht]

/-- C5, witness: the row `[3, 7, 5]` with threshold `2`; the argmax
class is reported because `7 ≥ 2`. -/
theorem predict_thresholded_argmax_witness :
    (([3, 7, 5] : List ℤ) ≠ []) ∧ predictRow [3, 7, 5] 2 = ((npArgmax [3, 7, 5] : Nat) : ℤ) :=
  ⟨by decide,
   (predict_thresholded_argmax [3, 7, 5] 2 (by decide)).2.2.1 (by
     have h2 : ([3, 7, 5] : List ℤ).getD (npArgmax [3, 7, 5]) 0 = 7 := by decide
     rw [h2]
     norm_num)⟩

/-- Membership in an `insertSortedNat` result. -/
theorem insertSortedNat_mem (x a : Nat) (l : List Nat) :
    a ∈ insertSortedNat x l ↔ a = x ∨ a ∈ l := by
  induction l with
  | nil => simp [insertSortedNat]
  | cons y ys ih =>
    unfold insertSortedNat
    by_cases h1 : x < y
    · simp [h1]
    · by_cases h2 : x = y
      · subst h2
        simp [h1]
      · simp [h1, h2, ih]
        tauto

/-- `insertSortedNat` preserves strict sortedness. -/
theorem insertSortedNat_sorted (x : Nat) (l : List Nat)
    (h : l.Sorted (· < ·)) : (insertSortedNat x l).Sorted (· < ·) := by
  induction l with
  | nil => simp [insertSortedNat]
  | cons y ys ih =>
    rw [List.sorted_cons] at h
    obtain ⟨hy, hys⟩ := h
    unfold insertSortedNat
    by_cases h1 : x < y
    · rw [if_pos h1, List.sorted_cons, List.sorted_cons]
      refine ⟨?_, hy, hys⟩
      intro b hb
      rcases List.mem_cons.mp hb with rfl | hb
      · exact h1
      · exact h1.trans (hy b hb)
    · by_cases h2 : x = y
      · rw [if_neg h1, if_pos h2, List.sorted_cons]
        exact ⟨hy, hys⟩
      · rw [if_neg h1, if_neg h2, List.sorted_cons]
        refine ⟨?_, ih hys⟩
        intro b hb
        rcases (insertSortedNat_mem x b ys).mp hb with rfl | hb
        · exact lt_of_le_of_ne (not_lt.mp h1) (Ne.symm h2)
        · exact hy b hb

/-- Folding `insertSortedNat` over any list preserves sortedness. -/
theorem foldl_insertSortedNat_sorted (l : List ℤ) :
    ∀ acc : List Nat, acc.Sorted (· < ·) →
      (l.foldl (fun acc v => insertSortedNat v.toNat acc) acc).Sorted (· < ·) := by
  induction l with
  | nil => intro acc hacc; simpa using hacc
  | cons v vs ih =>
    intro acc hacc
    exact ih _ (insertSortedNat_sorted _ _ hacc)

/-- The class list collected by `check_Xy` is strictly sorted. -/
theorem classesOf_sorted (y : List ℤ) : (classesOf y).Sorted (· < ·) :=
  foldl_insertSortedNat_sorted _ [] (by simp)

/-- In a `≤`-sorted list every element is bounded by the last one. -/
theorem le_getLastD_of_sorted :
    ∀ (l : List Nat) (d : Nat), l.Sorted (· < ·) → ∀ a ∈ l, a ≤ l.getLastD d := by
  intro l
  induction l with
  | nil => intro d _ a ha; simp at ha
  | cons y ys ih =>
    intro d h a ha
    rw [List.sorted_cons] at h
    obtain ⟨hy, hys⟩ := h
    rw [List.getLastD_cons]
    rcases List.mem_cons.mp ha with rfl | ha
    · cases ys with
      | nil => simp
      | cons z zs =>
        have hz : z ≤ (z :: zs).getLastD a := ih a hys z (by simp)
        exact le_of_lt (lt_of_lt_of_le (hy z (by simp)) hz)
    · exact ih y hys a ha

/-- Key contiguity fact behind the `classes[0] != 0 or classes[-1] !=
len - 1` test of `fit`: for a strictly sorted list of naturals, the
test passes exactly when the list is `[0, 1, ..., len-1]`. -/
theorem sorted_head_last_iff_range (cs : List Nat) (hs : cs.Sorted (· < ·))
    (hne : cs ≠ []) :
    (cs.headD 0 = 0 ∧ cs.getLastD 0 = cs.length - 1) ↔ cs = List.range cs.length := by
  constructor
  · rintro ⟨-, hlast⟩
    have hlen : 1 ≤ cs.length := by
      cases cs with
      | nil => exact absurd rfl hne
      | cons a l => simp
    have hsub : cs ⊆ List.range cs.length := by
      intro a ha
      rw [List.mem_range]
      have hb := le_getLastD_of_sorted cs 0 hs a ha
      omega
    have hperm : cs.Perm (List.range cs.length) := by
      have hsp := List.subperm_of_subset hs.nodup hsub
      exact hsp.perm_of_length_le (by rw [List.length_range])
    exact List.eq_of_perm_of_sorted hperm hs.le_of_lt (List.sorted_le_range _)
  · intro hcs
    constructor
    · rw [hcs]
      cases h : cs.length with
      | zero => rfl
      | succ m => rw [List.range_succ_eq_map]; rfl
    · rw [hcs]
      cases h : cs.length with
      | zero => rfl
      | succ m =>
        rw [List.range_succ, List.getLastD_concat]
        simp

/-- C6, amended.  For every integer label vector: when the distinct
non-negative labels are exactly `{0..k-1}` with `k ≥ 2`, the label
checks of `fit` succeed with `n_classes_ = k`; when at least two
distinct non-negative labels exist but do not form such a set, `fit`
raises the error naming the expected contiguous class list
`range(len(classes))` and the actual sorted class list; when fewer
than two distinct non-negative labels exist, `check_Xy` raises the
too-few-classes error (which names no lists) before the contiguity
test runs. -/
theorem fit_label_check_spec (y : List ℤ) :
    ((classesOf y).length < 2 → fitLabelCheck y = .error .tooFewClasses) ∧
    (∀ k, 2 ≤ k → classesOf y = List.range k → fitLabelCheck y = .ok k) ∧
    (2 ≤ (classesOf y).length → classesOf y ≠ List.range (classesOf y).length →
      fitLabelCheck y =
        .error (.labelsNotOrdered (List.range (classesOf y).length) (classesOf y))) := by
  refine ⟨?_, ?_, ?_⟩
  · intro h
    unfold fitLabelCheck check_Xy_classes
    rw [if_pos h]
  · intro k hk hcs
    have hlen : (classesOf y).length = k := by rw [hcs, List.length_range]
    have hnotlt : ¬(classesOf y).length < 2 := by omega
    have hne : classesOf y ≠ [] := by
      intro hnil
      rw [hnil] at hlen
      simp at hlen
      omega
    have hXy : check_Xy_classes y = .ok (classesOf y) := by
      unfold check_Xy_classes
      rw [if_neg hnotlt]
    have hcond := (sorted_head_last_iff_range (classesOf y) (classesOf_sorted y) hne).mpr
      (by rw [hlen]; exact hcs)
    unfold fitLabelCheck
    rw [hXy]
    dsimp only
    rw [if_neg (not_or.mpr ⟨not_not.mpr hcond.1, not_not.mpr hcond.2⟩), hlen]
  · intro h2 hne
    have hnotlt : ¬(classesOf y).length < 2 := by omega
    have hne' : classesOf y ≠ [] := by
      intro hnil
      rw [hnil] at h2
      simp at h2
    have hXy : check_Xy_classes y = .ok (classesOf y) := by
      unfold check_Xy_classes
      rw [if_neg hnotlt]
    have hcond : ¬((classesOf y).headD 0 = 0 ∧
        (classesOf y).getLastD 0 = (classesOf y).length - 1) := fun hc =>
      hne ((sorted_head_last_iff_range _ (classesOf_sorted y) hne').mp hc)
    unfold fitLabelCheck
    rw [hXy]
    dsimp only
    rw [if_pos (not_and_or.mp hcond)]

/-- C6, witness: contiguous labels `{0,1}` are accepted with
`n_classes_ = 2`; the gapped set `{0,2}` raises the error naming
`[0,1]` versus `[0,2]`; the single class `{5}` raises the
too-few-classes error. -/
theorem fit_label_check_spec_witness :
    fitLabelCheck [0, 1, 1, -1] = .ok 2 ∧
    fitLabelCheck [0, 2, 2] = .error (.labelsNotOrdered [0, 1] [0, 2]) ∧
    fitLabelCheck [5, 5] = .error .tooFewClasses :=
  ⟨(fit_label_check_spec [0, 1, 1, -1]).2.1 2 (by decide) (by decide),
   (fit_label_check_spec [0, 2, 2]).2.2 (by decide) (by decide),
   (fit_label_check_spec [5, 5]).1 (by decide)⟩

/-- The fold underlying `npMinQ` either keeps the accumulator or
returns an element of the list. -/
theorem foldl_min_mem (xs : List ℚ) :
    ∀ acc : ℚ, xs.foldl min acc = acc ∨ xs.foldl min acc ∈ xs := by
  induction xs with
  | nil => intro acc; left; rfl
  | cons x xs ih =>
    intro acc
    rw [List.foldl_cons]
    rcases ih (min acc x) with h | h
    · rw [h]
      rcases le_total acc x with hle | hle
      · left
        exact min_eq_left hle
      · right
        rw [min_eq_right hle]
        exact List.mem_cons_self x xs
    · right
      exact List.mem_cons_of_mem _ h

/-- The fold underlying `npMinQ` is a lower bound of the accumulator
and of every element. -/
theorem foldl_min_le (xs : List ℚ) :
    ∀ acc : ℚ, xs.foldl min acc ≤ acc ∧ ∀ x ∈ xs, xs.foldl min acc ≤ x := by
  induction xs with
  | nil => intro acc; exact ⟨le_refl _, by simp⟩
  | cons x xs ih =>
    intro acc
    rw [List.foldl_cons]
    obtain ⟨h1, h2⟩ := ih (min acc x)
    refine ⟨h1.trans (min_le_left _ _), ?_⟩
    intro b hb
    rcases List.mem_cons.mp hb with rfl | hb
    · exact h1.trans (min_le_right _ _)
    · exact h2 b hb

/-- `np.min` of a nonempty array is a member and a lower bound. -/
theorem npMinQ_spec (l : List ℚ) (h : l ≠ []) :
    npMinQ l ∈ l ∧ ∀ x ∈ l, npMinQ l ≤ x := by
  cases l with
  | nil => exact absurd rfl h
  | cons a xs =>
    constructor
    · rcases foldl_min_mem xs a with h1 | h1
      · rw [npMinQ, h1]
        exact List.mem_cons_self a xs
      · exact List.mem_cons_of_mem _ h1
    · intro x hx
      obtain ⟨h1, h2⟩ := foldl_min_le xs a
      rcases List.mem_cons.mp hx with rfl | hx
      · exact h1
      · exact h2 x hx

/-- Invariant of the threshold-sweep loop: starting from the best
index `j` (with its objective value and threshold) after having
examined indices `1..k-1`, the loop returns the threshold `jf/1000` of
the least index maximizing the objective over `1..k+fuel-1`. -/
theorem sweepAux_spec (probs : List ℚ) (yTrue : List Bool) :
    ∀ (fuel k j : Nat), 1 ≤ j → j < k →
      (∀ i, 1 ≤ i → i < k →
        sweepObjective probs yTrue i ≤ sweepObjective probs yTrue j) →
      (∀ i, 1 ≤ i → i < j →
        sweepObjective probs yTrue i < sweepObjective probs yTrue j) →
      ∃ jf, 1 ≤ jf ∧ jf < k + fuel ∧
        sweepAux probs yTrue fuel k (sweepObjective probs yTrue j)
            ((j : ℚ) / 1000) = (jf : ℚ) / 1000 ∧
        (∀ i, 1 ≤ i → i < k + fuel →
          sweepObjective probs yTrue i ≤ sweepObjective probs yTrue jf) ∧
        (∀ i, 1 ≤ i → i < jf →
          sweepObjective probs yTrue i < sweepObjective probs yTrue jf) := by
  intro fuel
  induction fuel with
  | zero =>
    intro k j hj hjk hmax hstrict
    exact ⟨j, hj, by omega, rfl, fun i h1 h2 => hmax i h1 (by omega), hstrict⟩
  | succ fuel ih =>
    intro k j hj hjk hmax hstrict
    rw [sweepAux]
    by_cases hc : sweepObjective probs yTrue j < sweepObjective probs yTrue k
    · rw [if_pos hc]
      have hmax' : ∀ i, 1 ≤ i → i < k + 1 →
          sweepObjective probs yTrue i ≤ sweepObjective probs yTrue k := by
        intro i h1 h2
        rcases Nat.lt_succ_iff_lt_or_eq.mp h2 with h | rfl
        · exact (hmax i h1 h).trans (le_of_lt hc)
        · exact le_refl _
      have hstrict' : ∀ i, 1 ≤ i → i < k →
          sweepObjective probs yTrue i < sweepObjective probs yTrue k :=
        fun i h1 h2 => lt_of_le_of_lt (hmax i h1 h2) hc
      obtain ⟨jf, a1, a2, a3, a4, a5⟩ := ih (k + 1) k (by omega) (by omega) hmax' hstrict'
      exact ⟨jf, a1, by omega, a3, fun i h1 h2 => a4 i h1 (by omega), a5⟩
    · rw [if_neg hc]
      have hle : sweepObjective probs yTrue k ≤ sweepObjective probs yTrue j :=
        not_lt.mp hc
      have hmax' : ∀ i, 1 ≤ i → i < k + 1 →
          sweepObjective probs yTrue i ≤ sweepObjective probs yTrue j := by
        intro i h1 h2
        rcases Nat.lt_succ_iff_lt_or_eq.mp h2 with h | rfl
        · exact hmax i h1 h
        · exact hle
      obtain ⟨jf, a1, a2, a3, a4, a5⟩ := ih (k + 1) j hj (by omega) hmax' hstrict
      exact ⟨jf, a1, by omega, a3, fun i h1 h2 => a4 i h1 (by omega), a5⟩

/-- C4.  The certainty-threshold calibration at the end of `fit`:
without unlabeled samples the threshold is the minimum over the
labeled evaluation set of the per-sample top Monte-Carlo-averaged
class probabilities (lines 297-298); with unlabeled samples it is
`k/1000` for the least `k` in `1..999` (all thresholds strictly below
`1`) maximizing the F1 score of `confidence ≥ threshold` against the
labeled-versus-unlabeled indicator, ties resolved to the lowest
threshold because the sweep of lines 312-321 replaces the best value
only on strict improvement. -/
theorem certainty_threshold_calibration (labMC unlabMC : List (List (List ℚ)))
    (hlab : labMC ≠ []) :
    (unlabMC = [] →
      calibrateThreshold labMC unlabMC ∈ confidences labMC ∧
      ∀ c ∈ confidences labMC, calibrateThreshold labMC unlabMC ≤ c) ∧
    (unlabMC ≠ [] →
      ∃ k : ℕ, 1 ≤ k ∧ k ≤ 999 ∧
        calibrateThreshold labMC unlabMC = (k : ℚ) / 1000 ∧
        (∀ i, 1 ≤ i → i ≤ 999 →
          sweepObjective (confidences labMC ++ confidences unlabMC)
              (List.replicate (confidences labMC).length true ++
                List.replicate (confidences unlabMC).length false) i ≤
            sweepObjective (confidences labMC ++ confidences unlabMC)
              (List.replicate (confidences labMC).length true ++
                List.replicate (confidences unlabMC).length false) k) ∧
        (∀ i, 1 ≤ i → i < k →
          sweepObjective (confidences labMC ++ confidences unlabMC)
              (List.replicate (confidences labMC).length true ++
                List.replicate (confidences unlabMC).length false) i <
            sweepObjective (confidences labMC ++ confidences unlabMC)
              (List.replicate (confidences labMC).length true ++
                List.replicate (confidences unlabMC).length false) k)) := by
  constructor
  · intro hu
    subst hu
    have hcne : confidences labMC ≠ [] := by
      simpa [confidences] using hlab
    have hcal : calibrateThreshold labMC [] = npMinQ (confidences labMC) := by
      simp [calibrateThreshold]
    rw [hcal]
    exact npMinQ_spec _ hcne
  · intro hu
    have hemp : unlabMC.isEmpty = false := by
      cases unlabMC with
      | nil => exact absurd rfl hu
      | cons a l => rfl
    have hcal : calibrateThreshold labMC unlabMC =
        sweepThreshold (confidences labMC ++ confidences unlabMC)
          (List.replicate (confidences labMC).length true ++
            List.replicate (confidences unlabMC).length false) := by
      simp [calibrateThreshold, hemp]
    obtain ⟨jf, a1, a2, a3, a4, a5⟩ :=
      sweepAux_spec (confidences labMC ++ confidences unlabMC)
        (List.replicate (confidences labMC).length true ++
          List.replicate (confidences unlabMC).length false)
        998 2 1 (le_refl 1) (by omega)
        (fun i h1 h2 => by
          have hi : i = 1 := by omega
          rw [hi])
        (fun i h1 h2 => by omega)
    simp only [Nat.cast_one] at a3
    refine ⟨jf, a1, by omega, ?_, fun i h1 h2 => a4 i h1 (by omega), a5⟩
    rw [hcal, sweepThreshold, a3]

/-- C4, witness: a single labeled sample with one Monte-Carlo pass
over one class and no unlabeled samples; the threshold is that
sample's confidence. -/
theorem certainty_threshold_calibration_witness :
    (([[[(1 : ℚ)/2]]] : List (List (List ℚ))) ≠ []) ∧
    calibrateThreshold [[[(1 : ℚ)/2]]] [] ∈ confidences [[[(1 : ℚ)/2]]] :=
  ⟨by simp,
   ((certainty_threshold_calibration [[[(1 : ℚ)/2]]] [] (by simp)).1 rfl).1⟩

/-- After any epoch's bookkeeping the best checkpoint exists and holds
exactly the model that `reloadBest` restores. -/
theorem epochBest_reload {M : Type} (m₁ : M) (q : ℚ) (best : Option (M × ℚ)) :
    ∃ q', epochBest m₁ q best = some (reloadBest m₁ (epochBest m₁ q best), q') := by
  cases best with
  | none => exact ⟨q, rfl⟩
  | some p =>
    obtain ⟨bm, bq⟩ := p
    by_cases h : bq < q
    · have hb : epochBest m₁ q (some (bm, bq)) = some (m₁, q) := by
        simp [epochBest, epochImproved, h]
      rw [hb]
      exact ⟨q, rfl⟩
    · have hb : epochBest m₁ q (some (bm, bq)) = some (bm, bq) := by
        simp [epochBest, epochImproved, h]
      rw [hb]
      exact ⟨bq, rfl⟩

/-- When the epoch loop exits with the early-stop flag down, either no
epoch ran at all, or the loop has just reloaded the best checkpoint:
the exit state's in-memory model is the best checkpoint's model. -/
theorem runEpochsF_exhaustion {M ε : Type} (train : Nat → M → Except ε M)
    (quality : M → ℚ) (patience : Nat) (base : FileName) :
    ∀ (fuel e : Nat) (s : EpochState M) (files : List FileName)
      (s' : EpochState M) (files' : List FileName),
      runEpochsF train quality patience base fuel e s files = (.ok (s', false), files') →
      (s' = s ∧ fuel = 0) ∨ ∃ q, s'.best = some (s'.model, q) := by
  intro fuel
  induction fuel with
  | zero =>
    intro e s files s' files' h
    rw [runEpochsF] at h
    injection h with h1 h2
    injection h1 with h3
    injection h3 with h4 h5
    exact Or.inl ⟨h4.symm, rfl⟩
  | succ fuel ih =>
    intro e s files s' files' h
    rw [runEpochsF] at h
    cases htr : train e s.model with
    | error err =>
      rw [htr] at h
      injection h with h1 h2
      exact Except.noConfusion h1
    | ok m₁ =>
      rw [htr] at h
      dsimp only at h
      split at h
      · split at h
        · -- improved, early stop: flag `true` contradicts the hypothesis
          injection h with h1 h2
          injection h1 with h3
          injection h3 with h4 h5
          exact Bool.noConfusion h5
        · rcases ih _ _ _ _ _ h with ⟨rfl, -⟩ | hq
          · exact Or.inr (epochBest_reload m₁ (quality m₁) s.best)
          · exact Or.inr hq
      · split at h
        · injection h with h1 h2
          injection h1 with h3
          injection h3 with h4 h5
          exact Bool.noConfusion h5
        · rcases ih _ _ _ _ _ h with ⟨rfl, -⟩ | hq
          · exact Or.inr (epochBest_reload m₁ (quality m₁) s.best)
          · exact Or.inr hq

/-- C7, amended.  When the epoch loop exits by exhausting `max_epochs`
(no early stop — the returned flag is `false`), the reload of
lines 244-247 has run at the final epoch boundary too, so the model
that threshold calibration sees is the best checkpoint saved during
the loop; when early stopping fires, the `break` of line 243 skips
that reload and calibration instead sees the weights of the final
non-improving epoch (see the counterexample). -/
theorem fit_restores_best_on_exhaustion {M ε : Type} (train : Nat → M → Except ε M)
    (quality : M → ℚ) (patience : Nat) (base : FileName) (maxEpochs : Nat) (m0 : M)
    (files0 : List FileName) (s' : EpochState M) (files' : List FileName)
    (h1 : 1 ≤ maxEpochs)
    (h2 : runEpochsF train quality patience base maxEpochs 0 ⟨m0, none, 0⟩ files0 =
      (.ok (s', false), files')) :
    ∃ q, s'.best = some (s'.model, q) := by
  rcases runEpochsF_exhaustion train quality patience base maxEpochs 0 _ files0 s' files' h2 with
    ⟨-, h0⟩ | hq
  · omega
  · exact hq

/-- C7, witness: one epoch, patience two — the loop exhausts
`max_epochs` and the final state's model is the checkpointed best. -/
theorem fit_restores_best_on_exhaustion_witness :
    (1 ≤ 1) ∧ ∃ q, (⟨1, some (1, 0), 0⟩ : EpochState Nat).best =
      some ((⟨1, some (1, 0), 0⟩ : EpochState Nat).model, q) :=
  ⟨le_refl 1,
   fit_restores_best_on_exhaustion (fun _ m => (Except.ok (m + 1) : Except Unit Nat))
     (fun _ => (0 : ℚ)) 2 [] 1 0 [] ⟨1, some (1, 0), 0⟩ (saveModelFiles [] [])
     (le_refl 1) rfl⟩

/-- A checkpoint base name begins every name obtained by appending a
suffix to it. -/
theorem beginsWith_self_append (p s : FileName) : beginsWith p (p ++ s) = true := by
  induction p with
  | nil => rfl
  | cons c cs ih => simp [beginsWith, ih]

/-- Substring search finds the base name in any name that starts with
it (as all names written by `save_model` do). -/
theorem containsSub_append_self (p s : FileName) : containsSub p (p ++ s) = true := by
  cases hp : p ++ s with
  | nil =>
    have h0 := List.append_eq_nil.mp hp
    rw [h0.1]
    rfl
  | cons c t =>
    rw [containsSub, ← hp, beginsWith_self_append]
    rfl

/-- C8.  The `try/finally` of lines 160-250: whatever the epoch loop
does — normal exhaustion, early stop, or an exception raised while
training — every file matching the temporary model name is removed
before `fit` returns or re-raises, and every file that `save_model`
creates under that name does match it (so all created checkpoint
files are among the deleted ones). -/
theorem fit_checkpoint_cleanup {M ε : Type} (train : Nat → M → Except ε M)
    (quality : M → ℚ) (patience : Nat) (base : FileName) (maxEpochs : Nat)
    (m0 : M) (files0 : List FileName) :
    ((fitTrainLoop train quality patience base maxEpochs m0 files0).2.filter
      (fun f => containsSub base f)) = [] ∧
    (checkpointFiles base).all (fun f => containsSub base f) = true := by
  constructor
  · show (((runEpochsF train quality patience base maxEpochs 0 ⟨m0, none, 0⟩
        files0).2.filter (fun f => !(containsSub base f))).filter
          (fun f => containsSub base f)) = []
    rw [List.filter_filter]
    rw [List.filter_eq_nil_iff]
    intro a ha
    simp
  · simp [checkpointFiles, containsSub_append_self]

/-- Summing pointwise negations negates the sum. -/
theorem sum_map_neg_eq {α : Type} (l : List α) (g : α → ℝ) :
    (l.map (fun a => -(g a))).sum = -((l.map g).sum) := by
  induction l with
  | nil => simp
  | cons a l ih =>
    simp [ih]
    ring

/-- Pointwise form of the likelihood term: the Categorical log-density
computed from logits equals the log of the softmax probability of the
true class. -/
theorem catLogProb_eq_log_softmax (row : List ℝ) (k : Nat) (hlt : k < row.length) :
    catLogProb row k = Real.log ((softmax row).getD k 0) := by
  have hne : row ≠ [] := by
    intro h0
    rw [h0] at hlt
    simp at hlt
  have hSpos : 0 < (row.map Real.exp).sum := by
    apply List.sum_pos
    · intro a ha
      obtain ⟨z, hz, rfl⟩ := List.mem_map.mp ha
      exact Real.exp_pos z
    · simpa using hne
  have hgetD : (softmax row).getD k 0 =
      Real.exp (row.getD k 0) / (row.map Real.exp).sum := by
    rw [softmax, List.getD_eq_getElem _ _ (by simpa using hlt), List.getElem_map,
      List.getD_eq_getElem _ _ hlt]
  rw [catLogProb, hgetD, Real.log_div (Real.exp_ne_zero _) (ne_of_gt hSpos),
    Real.log_exp]

/-- C9.  The loss wired into the optimizer step (lines 540-546) is the
ELBO objective: the negative mean Categorical log-likelihood of the
batch's true labels — which equals the plain mean cross-entropy under
the softmax distribution — plus the sum of the per-layer
KL-divergence terms `sum(model.losses)`; whenever that KL sum is
nonzero the minimized loss differs from plain cross-entropy alone. -/
theorem elbo_loss_is_cross_entropy_plus_kl (logits : List (List ℝ)) (ys : List Nat)
    (klTerms : List ℝ)
    (h : ((logits.zip ys).all (fun p => decide (p.2 < p.1.length))) = true) :
    elboLoss logits ys klTerms = crossEntropy logits ys + klTerms.sum ∧
    (klTerms.sum ≠ 0 → elboLoss logits ys klTerms ≠ crossEntropy logits ys) := by
  have hpt : ∀ p ∈ logits.zip ys,
      catLogProb p.1 p.2 = Real.log ((softmax p.1).getD p.2 0) := by
    intro p hp
    exact catLogProb_eq_log_softmax p.1 p.2 (of_decide_eq_true (List.all_eq_true.mp h p hp))
  have hmain : elboLoss logits ys klTerms = crossEntropy logits ys + klTerms.sum := by
    rw [elboLoss, negLogLikelihood, crossEntropy, List.map_congr_left hpt,
      sum_map_neg_eq (logits.zip ys) (fun p => Real.log ((softmax p.1).getD p.2 0)),
      neg_div]
  refine ⟨hmain, ?_⟩
  intro hk heq
  rw [hmain] at heq
  exact hk (by linarith)

/-- C9, witness: one sample with two equal logits and a single
KL term of `1`. -/
theorem elbo_loss_is_cross_entropy_plus_kl_witness :
    ((([[0, 0]] : List (List ℝ)).zip [0]).all (fun p => decide (p.2 < p.1.length)) = true) ∧
    elboLoss [[0, 0]] [0] [1] = crossEntropy [[0, 0]] [0] + ([1] : List ℝ).sum :=
  ⟨rfl, (elbo_loss_is_cross_entropy_plus_kl [[0, 0]] [0] [1] rfl).1⟩

end ImpatialTextCls
